import Mathlib

/-!
Verification development for the PV-Curve-Tracer Visualizer
(`src/Visualizer/src/parser.rs`, `src/Visualizer/src/communication.rs`).

The Rust code works on `String`s split on single characters; we model a
string as a list of characters (`Str`).  `f32` fields are modelled as exact
rationals (`ℚ`): non-finite literals (`inf`, `nan`) and rounding to binary
floating point are not modelled, which is irrelevant to the claims below,
all of which concern the structure of parsing, validation and aggregation.
Fallible Rust code returns `Result<_, _>`, embedded as `Except String _`;
code that can panic (out-of-bounds indexing, `unwrap`) is embedded inside
`Option`, with `none` standing for a panic.
-/

deriving instance DecidableEq for Except

/-- A Rust string, modelled as its character list. -/
abbrev Str := List Char

/-- Character list of a Lean string literal (used to write concrete inputs). -/
def str (s : String) : Str := s.data

/-- Whitespace as trimmed by Rust `str::trim` (ASCII fragment; the wire
protocol is ASCII text). -/
def isWS (c : Char) : Bool := c = ' ' || c = '\t' || c = '\n' || c = '\r'

/-- Model of Rust `str::trim_start`. -/
def trimLeft (s : Str) : Str := s.dropWhile isWS

/-- Model of Rust `str::trim_end`. -/
def trimRight (s : Str) : Str := (s.reverse.dropWhile isWS).reverse

/-- Model of Rust `str::trim`. -/
def trim (s : Str) : Str := trimRight (trimLeft s)

/-- Model of Rust `str::split` on a one-character pattern: `"".split(c)`
yields one empty piece, and every separator starts a new piece. -/
def splitChar (sep : Char) : Str → List Str
  | [] => [[]]
  | c :: rest =>
    if c = sep then [] :: splitChar sep rest
    else
      match splitChar sep rest with
      | [] => [[c]]
      | t :: ts => (c :: t) :: ts

/-- ASCII digit test (Rust numeric `FromStr` accepts only ASCII digits). -/
def digit? (c : Char) : Bool := c.isDigit

/-- Value of a list of decimal digit characters. -/
def digitsToNat (l : Str) : Nat :=
  l.foldl (fun a c => a * 10 + (c.toNat - Char.toNat '0')) 0

/-- Strip one optional leading sign, returning the sign and the rest
(shared by the integer and float grammars of Rust `FromStr`). -/
def parseSign (s : Str) : Int × Str :=
  match s with
  | '+' :: r => (1, r)
  | '-' :: r => (-1, r)
  | _ => (1, s)

/-- Model of Rust `str::parse::<i32>()`: optional sign, one or more ASCII
digits, nothing else, and the value must fit in `i32`. -/
def parseI32 (s : Str) : Option Int :=
  let ds := (parseSign s).2
  if ds ≠ [] ∧ ds.all digit? then
    let v : Int := (parseSign s).1 * (digitsToNat ds : Int)
    if -(2 ^ 31) ≤ v ∧ v < 2 ^ 31 then some v else none
  else none

/-- Split a string at the first character satisfying `p`; `none` in the
second component means no such character occurs. -/
def breakAt (p : Char → Bool) : Str → Str × Option Str
  | [] => ([], none)
  | c :: r =>
    if p c then ([], some r)
    else
      let (b, a) := breakAt p r
      (c :: b, a)

/-- `10 ^ e` over `ℚ` for an integer exponent. -/
def epow (e : Int) : ℚ :=
  if 0 ≤ e then (10 : ℚ) ^ e.toNat else 1 / (10 : ℚ) ^ (-e).toNat

/-- Model of Rust `str::parse::<f32>()` on finite decimal literals:
optional sign, decimal mantissa with optional fraction part and at least
one digit, optional decimal exponent.  The value is kept exact in `ℚ`
(binary rounding, `inf` and `nan` are not modelled). -/
def parseF32 (s : Str) : Option ℚ :=
  let sg := (parseSign s).1
  let r1 := (parseSign s).2
  let mant := (breakAt (fun c => c = 'e' || c = 'E') r1).1
  let expVal : Option Int :=
    match (breakAt (fun c => c = 'e' || c = 'E') r1).2 with
    | none => some 0
    | some es =>
      if (parseSign es).2 ≠ [] ∧ ((parseSign es).2).all digit? then
        some ((parseSign es).1 * (digitsToNat (parseSign es).2 : Int))
      else none
  match expVal with
  | none => none
  | some ev =>
    let ip := (breakAt (fun c => c = '.') mant).1
    let fp := ((breakAt (fun c => c = '.') mant).2).getD []
    if (ip ++ fp) ≠ [] ∧ ip.all digit? ∧ fp.all digit? then
      some ((sg : ℚ) * ((digitsToNat ip : ℚ) + (digitsToNat fp : ℚ) / (10 : ℚ) ^ fp.length) * epow ev)
    else none

/-- Decimal digits of a natural number (Rust `Display` for unsigned ints). -/
def fmtNat (n : Nat) : Str := Nat.toDigits 10 n

/-- Model of Rust `Display` for `i32`. -/
def fmtInt (n : Int) : Str :=
  if n < 0 then '-' :: fmtNat n.natAbs else fmtNat n.natAbs

/-- Model of Rust `Display` for `f32` restricted to terminating decimals:
an integral value prints as an integer, otherwise the shortest terminating
decimal expansion is printed.  Rationals with no terminating decimal
expansion (which no `f32` value has) print a placeholder. -/
def fmtF32 (q : ℚ) : Str :=
  if q.den = 1 then fmtInt q.num
  else
    match (List.range 200).find? (fun k => q.den ∣ 10 ^ k) with
    | none => str ("?")
    | some k =>
      let scaled := q.num.natAbs * 10 ^ k / q.den
      let ds := fmtNat scaled
      let ds := if ds.length ≤ k then List.replicate (k + 1 - ds.length) '0' ++ ds else ds
      let ip := ds.take (ds.length - k)
      let fp := ds.drop (ds.length - k)
      (if q.num < 0 then ['-'] else []) ++ ip ++ '.' :: fp

/-! ## Packet data model (`parser.rs`) -/

/-- `PacketCommand` from `parser.rs`: START, TEST or END command. -/
inductive PacketCommand where
  | START
  | TEST
  | END
deriving DecidableEq, Repr

/-- `PacketType` from `parser.rs`: the measurement kind of a data packet. -/
inductive PacketType where
  | VOLTAGE
  | CURRENT
  | TEMP
  | IRRAD
deriving DecidableEq, Repr

/-- `PacketType::to_num` from `parser.rs`. -/
def PacketType.to_num : PacketType → Int
  | .VOLTAGE => 0
  | .CURRENT => 1
  | .TEMP => 2
  | .IRRAD => 3

/-- `PacketType::num_to_packet_type` from `parser.rs`: note the catch-all
arm defaulting every unknown code to `VOLTAGE`. -/
def PacketType.num_to_packet_type (val : Int) : PacketType :=
  if val = 0 then .VOLTAGE
  else if val = 1 then .CURRENT
  else if val = 2 then .TEMP
  else if val = 3 then .IRRAD
  else .VOLTAGE

/-- `CommandPacket` from `parser.rs`. -/
structure CommandPacket where
  packet_id : Int
  packet_command : PacketCommand
  packet_params : List ℚ
deriving DecidableEq, Repr

/-- `DataPacket` from `parser.rs`. -/
structure DataPacket where
  packet_id : Int
  packet_subid : Int
  packet_type : PacketType
  packet_data : ℚ
deriving DecidableEq, Repr

/-- `PacketSet` from `parser.rs`: one command packet plus its data. -/
structure PacketSet where
  command_packet : CommandPacket
  data_packets : List DataPacket
deriving DecidableEq, Repr

/-- `CommandPacket::verify_packet` from `parser.rs` (lines 230-256),
including its buggy conjunction on the resolution check: the parameter
indexing is guarded by the preceding length checks, so `getD` is exact. -/
def CommandPacket.verify_packet (p : CommandPacket) : Except String Unit :=
  if p.packet_id < 0 then
    Except.error ("[verify_packet] Packet ID must be a nonnegative integer.")
  else if p.packet_command = .TEST ∧ p.packet_params.length ≠ 3 then
    Except.error ("[verify_packet] Exactly three parameters are required for TEST.")
  else if p.packet_command ≠ .TEST ∧ p.packet_params.length ≠ 0 then
    Except.error ("[verify_packet] Exactly zero parameters are required for START or END.")
  else if p.packet_command = .TEST then
    if p.packet_params.getD 1 0 ≤ p.packet_params.getD 0 0 then
      Except.error ("[verify_packet] Voltage End [1] should be strictly >= Voltage Start [0].")
    else if p.packet_params.getD 2 0 > (p.packet_params.getD 1 0 - p.packet_params.getD 0 0)
        ∧ p.packet_params.getD 2 0 > 0 then
      Except.error ("[verify_packet] Voltage Resolution [2] should be in the range (0, Voltage End - Voltage Start].")
    else Except.ok ()
  else Except.ok ()

/-- `CommandPacket::parse_packet_string` from `parser.rs` (lines 150-219).
`none` models a panic; this function never panics since `split` always
yields at least one token and indexing follows the length checks. -/
def CommandPacket.parse_packet_string (s : Str) : Option (Except String CommandPacket) :=
  let vec := splitChar ' ' s
  match vec.get? 0 with
  | none => none
  | some t0 =>
    if t0 = str ("START") ∨ t0 = str ("END") then
      if vec.length ≠ 2 then
        some (Except.error ("[parse_packet_string] Invalid parameter list length."))
      else
        match vec.get? 1 with
        | none => none
        | some t1 =>
          match parseI32 t1 with
          | none => some (Except.error ("[parse_packet_string] Invalid packet parameter types."))
          | some id =>
            let cmd : PacketCommand := if t0 = str ("START") then .START else .END
            let cp : CommandPacket := ⟨id, cmd, []⟩
            some (match cp.verify_packet with
                  | Except.ok _ => Except.ok cp
                  | Except.error e => Except.error e)
    else if t0 = str ("TEST") then
      if vec.length ≠ 5 then
        some (Except.error ("[parse_packet_string] Invalid parameter list length."))
      else
        match vec.get? 1, vec.get? 2, vec.get? 3, vec.get? 4 with
        | some t1, some t2, some t3, some t4 =>
          match parseI32 t1, parseF32 t2, parseF32 t3, parseF32 t4 with
          | some id, some a, some b, some c =>
            let cp : CommandPacket := ⟨id, .TEST, [a, b, c]⟩
            some (match cp.verify_packet with
                  | Except.ok _ => Except.ok cp
                  | Except.error e => Except.error e)
          | _, _, _, _ =>
            some (Except.error ("[parse_packet_string] Invalid packet parameter types."))
        | _, _, _, _ => none
    else some (Except.error ("[parse_packet_string] Invalid packet type."))

/-- `CommandPacket::stringify` from `parser.rs` (lines 330-332): every
command renders as a `TEST` line, and the three parameters are indexed
unconditionally — `none` models the panic on an empty parameter vector. -/
def CommandPacket.stringify (p : CommandPacket) : Option Str :=
  match p.packet_params.get? 0, p.packet_params.get? 1, p.packet_params.get? 2 with
  | some a, some b, some c =>
    some (str ("TEST ") ++ fmtInt p.packet_id ++ ' ' :: fmtF32 a ++ ' ' :: fmtF32 b
          ++ ' ' :: fmtF32 c ++ ['\n'])
  | _, _, _ => none

/-- `DataPacket::verify_packet` from `parser.rs` (lines 413-424). -/
def DataPacket.verify_packet (p : DataPacket) : Except String Unit :=
  if p.packet_id < 0 then
    Except.error ("[verify_packet] Packet ID must be a nonnegative integer.")
  else if p.packet_subid < 0 then
    Except.error ("[verify_packet] Packet subID must be a nonnegative integer.")
  else Except.ok ()

/-- `DataPacket::parse_packet_string` from `parser.rs` (lines 371-401).
The source indexes `vec[1]` … `vec[4]` with no token-count check, guarded
only by the short-circuit of `||`, so a `DATA` line whose tokens run out
before a parse failure is hit panics: modelled by `none`. -/
def DataPacket.parse_packet_string (s : Str) : Option (Except String DataPacket) :=
  let vec := splitChar ' ' s
  match vec.get? 0 with
  | none => none
  | some t0 =>
    if t0 = str ("DATA") then
      match vec.get? 1 with
      | none => none
      | some t1 =>
        if (parseI32 t1).isNone then some (Except.error ("Invalid packet parameter."))
        else
          match vec.get? 2 with
          | none => none
          | some t2 =>
            if (parseI32 t2).isNone then some (Except.error ("Invalid packet parameter."))
            else
              match vec.get? 3 with
              | none => none
              | some t3 =>
                if (parseI32 t3).isNone then some (Except.error ("Invalid packet parameter."))
                else
                  match vec.get? 4 with
                  | none => none
                  | some t4 =>
                    match parseF32 t4 with
                    | none => some (Except.error ("Invalid packet parameter."))
                    | some v =>
                      match parseI32 t1, parseI32 t2, parseI32 t3 with
                      | some id, some subid, some mt =>
                        let dp : DataPacket := ⟨id, subid, PacketType.num_to_packet_type mt, v⟩
                        some (match dp.verify_packet with
                              | Except.ok _ => Except.ok dp
                              | Except.error e => Except.error e)
                      | _, _, _ => some (Except.error ("Invalid packet parameter."))
    else some (Except.error ("Invalid packet type."))

/-- `DataPacket::stringify` from `parser.rs` (lines 482-484). -/
def DataPacket.stringify (p : DataPacket) : Str :=
  str ("DATA ") ++ fmtInt p.packet_id ++ ' ' :: fmtInt p.packet_subid
    ++ ' ' :: fmtInt p.packet_type.to_num ++ ' ' :: fmtF32 p.packet_data ++ ['\n']

/-! ## Basic properties of the string model -/

theorem splitChar_ne_nil (sep : Char) (s : Str) : splitChar sep s ≠ [] := by
  induction s with
  | nil => simp [splitChar]
  | cons c r ih =>
    simp only [splitChar]
    split
    · simp
    · cases h : splitChar sep r with
      | nil => simp
      | cons t ts => simp

theorem getLastD_mem : ∀ {α : Type} (l : List α) (d : α), l ≠ [] → l.getLastD d ∈ l
  | _, [], _, h => absurd rfl h
  | _, [a], _, _ => by simp
  | α, a :: b :: l, d, _ => by
    rw [List.getLastD_cons]
    exact List.mem_cons_of_mem a (getLastD_mem (b :: l) a (by simp))

theorem mem_splitChar_not_mem {sep : Char} :
    ∀ {s t : Str}, t ∈ splitChar sep s → sep ∉ t := by
  intro s
  induction s with
  | nil =>
    intro t h
    simp [splitChar] at h
    subst h
    simp
  | cons c r ih =>
    intro t h
    simp only [splitChar] at h
    by_cases hc : c = sep
    · rw [if_pos hc] at h
      rcases List.mem_cons.mp h with h1 | h1
      · subst h1; simp
      · exact ih h1
    · rw [if_neg hc] at h
      cases hs : splitChar sep r with
      | nil => exact absurd hs (splitChar_ne_nil sep r)
      | cons u us =>
        rw [hs] at h
        rcases List.mem_cons.mp h with h1 | h1
        · subst h1
          intro hmem
          rcases List.mem_cons.mp hmem with h2 | h2
          · exact hc h2.symm
          · exact ih (hs ▸ List.mem_cons_self u us) h2
        · exact ih (hs ▸ List.mem_cons_of_mem u h1)

theorem splitChar_eq_single {sep : Char} : ∀ {s : Str}, sep ∉ s → splitChar sep s = [s]
  | [], _ => by simp [splitChar]
  | c :: r, h => by
    have hc : ¬(c = sep) := fun hcc => h (hcc ▸ List.mem_cons_self c r)
    have hr : sep ∉ r := fun hm => h (List.mem_cons_of_mem c hm)
    simp only [splitChar, if_neg hc, splitChar_eq_single hr]

theorem splitChar_append_sep {sep : Char} (b : Str) :
    ∀ {a : Str}, sep ∉ a → splitChar sep (a ++ sep :: b) = a :: splitChar sep b
  | [], _ => by simp [splitChar]
  | c :: r, h => by
    have hc : ¬(c = sep) := fun hcc => h (hcc ▸ List.mem_cons_self c r)
    have hr : sep ∉ r := fun hm => h (List.mem_cons_of_mem c hm)
    rw [List.cons_append]
    simp only [splitChar, if_neg hc]
    rw [splitChar_append_sep b hr]

/-- Join the last piece of a first split with the first piece of a second. -/
def glue : List Str → List Str → List Str
  | [], ys => ys
  | [a], ys =>
    match ys with
    | [] => [a]
    | b :: bs => (a ++ b) :: bs
  | a :: rest, ys => a :: glue rest ys

theorem glue_cons_cons {a x : Str} {l : List Str} (ys : List Str) :
    glue (a :: x :: l) ys = a :: glue (x :: l) ys := by
  rfl

theorem splitChar_append (sep : Char) (x y : Str) :
    splitChar sep (x ++ y) = glue (splitChar sep x) (splitChar sep y) := by
  induction x with
  | nil =>
    rw [List.nil_append]
    cases hy : splitChar sep y with
    | nil => exact absurd hy (splitChar_ne_nil sep y)
    | cons b bs => simp [splitChar, glue, hy]
  | cons c r ih =>
    rw [List.cons_append]
    by_cases hc : c = sep
    · simp only [splitChar, if_pos hc, ih]
      cases hr : splitChar sep r with
      | nil => exact absurd hr (splitChar_ne_nil sep r)
      | cons t ts => rw [glue_cons_cons]
    · simp only [splitChar, if_neg hc, ih]
      cases hr : splitChar sep r with
      | nil => exact absurd hr (splitChar_ne_nil sep r)
      | cons t ts =>
        cases ts with
        | nil =>
          cases hy : splitChar sep y with
          | nil => exact absurd hy (splitChar_ne_nil sep y)
          | cons b bs => simp [glue]
        | cons u us => simp [glue_cons_cons]

theorem glue_eq_dropLast_append :
    ∀ {L : List Str}, L ≠ [] → ∀ (M : List Str),
      glue L M = L.dropLast ++ glue [L.getLastD []] M
  | [], h, _ => absurd rfl h
  | [a], _, M => by simp [glue]
  | a :: x :: l, _, M => by
    rw [glue_cons_cons, glue_eq_dropLast_append (by simp) M]
    simp [List.getLastD_cons]

/-- Splitting a concatenation: the pieces of `x` except the last, then the
split of the last piece of `x` glued onto `y`. -/
theorem splitChar_append_flat (sep : Char) (x y : Str) :
    splitChar sep (x ++ y)
      = (splitChar sep x).dropLast ++ splitChar sep ((splitChar sep x).getLastD [] ++ y) := by
  rw [splitChar_append sep x y]
  have hlast : sep ∉ (splitChar sep x).getLastD [] :=
    mem_splitChar_not_mem (getLastD_mem (splitChar sep x) [] (splitChar_ne_nil sep x))
  rw [splitChar_append sep ((splitChar sep x).getLastD [] ) y, splitChar_eq_single hlast]
  exact glue_eq_dropLast_append (splitChar_ne_nil sep x) (splitChar sep y)

theorem trimLeft_cons_of_not_ws {c : Char} (s : Str) (h : isWS c = false) :
    trimLeft (c :: s) = c :: s := by
  simp [trimLeft, List.dropWhile_cons, h]

theorem trimRight_append_ws {c : Char} (s : Str) (h : isWS c = true) :
    trimRight (s ++ [c]) = trimRight s := by
  simp [trimRight, List.dropWhile_cons, h]

theorem trimRight_append_of_not_ws {c : Char} (s : Str) (h : isWS c = false) :
    trimRight (s ++ [c]) = s ++ [c] := by
  simp [trimRight, List.dropWhile_cons, h]

/-- Trimming a line that starts and ends with non-whitespace removes
exactly a trailing newline. -/
theorem trim_append_newline {c : Char} {s : Str} (hh : isWS c = false)
    (hl : isWS ((c :: s).getLastD c) = false) :
    trim ((c :: s) ++ ['\n']) = c :: s := by
  have hdl : (c :: s) = (c :: s).dropLast ++ [(c :: s).getLastD c] := by
    have := List.dropLast_append_getLast (l := c :: s) (by simp)
    rw [List.getLastD_eq_getLast?, List.getLast?_eq_getLast (c :: s) (by simp)]
    simpa using this.symm
  rw [trim, List.cons_append, trimLeft_cons_of_not_ws _ hh, ← List.cons_append,
    trimRight_append_ws _ (by simp [isWS]), hdl, trimRight_append_of_not_ws _ hl]

theorem trim_of_bounds {c : Char} {s : Str} (hh : isWS c = false)
    (hl : isWS ((c :: s).getLastD c) = false) :
    trim (c :: s) = c :: s := by
  have hdl : (c :: s) = (c :: s).dropLast ++ [(c :: s).getLastD c] := by
    have := List.dropLast_append_getLast (l := c :: s) (by simp)
    rw [List.getLastD_eq_getLast?, List.getLast?_eq_getLast (c :: s) (by simp)]
    simpa using this.symm
  rw [trim, trimLeft_cons_of_not_ws _ hh, hdl, trimRight_append_of_not_ws _ hl]

theorem digit_not_ws {c : Char} (h : digit? c = true) : isWS c = false := by
  by_cases h1 : c = ' '
  · subst h1; simp [digit?, Char.isDigit] at h
  by_cases h2 : c = '\t'
  · subst h2; simp [digit?, Char.isDigit] at h
  by_cases h3 : c = '\n'
  · subst h3; simp [digit?, Char.isDigit] at h
  by_cases h4 : c = '\r'
  · subst h4; simp [digit?, Char.isDigit] at h
  simp [isWS, h1, h2, h3, h4]

theorem parseSign_cases (s : Str) :
    (parseSign s).1 ∈ ([1, -1] : List Int) ∧
      (s = (parseSign s).2 ∨ ∃ c, isWS c = false ∧ s = c :: (parseSign s).2) := by
  match s with
  | [] => simp [parseSign]
  | '+' :: r =>
    refine ⟨by simp [parseSign], Or.inr ⟨'+', by simp [isWS], ?_⟩⟩
    simp [parseSign]
  | '-' :: r =>
    refine ⟨by simp [parseSign], Or.inr ⟨'-', by simp [isWS], ?_⟩⟩
    simp [parseSign]
  | c :: r =>
    by_cases h1 : c = '+'
    · subst h1; refine ⟨by simp [parseSign], Or.inr ⟨'+', by simp [isWS], by simp [parseSign]⟩⟩
    by_cases h2 : c = '-'
    · subst h2; refine ⟨by simp [parseSign], Or.inr ⟨'-', by simp [isWS], by simp [parseSign]⟩⟩
    refine ⟨?_, Or.inl ?_⟩ <;> simp [parseSign, h1, h2]

theorem breakAt_cons_neg {p : Char → Bool} {c : Char} (r : Str) (hc : p c = false) :
    breakAt p (c :: r) = (c :: (breakAt p r).1, (breakAt p r).2) := by
  simp [breakAt, hc]

theorem breakAt_none {p : Char → Bool} : ∀ {s b : Str}, breakAt p s = (b, none) → s = b := by
  intro s
  induction s with
  | nil => intro b h; simpa [breakAt] using h.symm
  | cons c r ih =>
    intro b h
    by_cases hc : p c
    · simp [breakAt, hc] at h
    · rw [breakAt_cons_neg r (by simpa using hc)] at h
      rw [Prod.mk.injEq] at h
      obtain ⟨h1, h2⟩ := h
      subst h1
      have hb : breakAt p r = ((breakAt p r).1, none) := by rw [← h2]
      rw [← ih hb]

theorem breakAt_some {p : Char → Bool} :
    ∀ {s b a : Str}, breakAt p s = (b, some a) → ∃ c, p c = true ∧ s = b ++ c :: a := by
  intro s
  induction s with
  | nil => intro b a h; simp [breakAt] at h
  | cons c r ih =>
    intro b a h
    by_cases hc : p c
    · simp [breakAt, hc] at h
      exact ⟨c, hc, by simp [h.1.symm, h.2.symm]⟩
    · rw [breakAt_cons_neg r (by simpa using hc)] at h
      rw [Prod.mk.injEq] at h
      obtain ⟨h1, h2⟩ := h
      subst h1
      have hb : breakAt p r = ((breakAt p r).1, some a) := by rw [← h2]
      obtain ⟨d, hd, hr⟩ := ih hb
      exact ⟨d, hd, by rw [List.cons_append, ← hr]⟩

theorem all_not_ws_of_digits {l : Str} (h : l.all digit? = true) :
    ∀ c ∈ l, isWS c = false :=
  fun c hc => digit_not_ws (List.all_eq_true.mp h c hc)

theorem not_mem_space {t : Str} (h : ∀ c ∈ t, isWS c = false) : ' ' ∉ t :=
  fun hmem => by simpa [isWS] using h ' ' hmem

/-- A token accepted by the integer grammar is nonempty and whitespace-free. -/
theorem parseI32_chars {s : Str} {v : Int} (h : parseI32 s = some v) :
    s ≠ [] ∧ ∀ c ∈ s, isWS c = false := by
  simp only [parseI32] at h
  by_cases hcond : (parseSign s).2 ≠ [] ∧ ((parseSign s).2).all digit?
  · obtain ⟨hne, hdig⟩ := hcond
    have hall := all_not_ws_of_digits hdig
    obtain ⟨-, hs⟩ := parseSign_cases s
    rcases hs with hs | ⟨d, hd, hs⟩
    · exact ⟨by rw [hs]; exact hne, by rw [hs]; exact hall⟩
    · refine ⟨by rw [hs]; simp, ?_⟩
      rw [hs]
      intro c hc
      rcases List.mem_cons.mp hc with h1 | h1
      · exact h1 ▸ hd
      · exact hall c h1
  · rw [if_neg hcond] at h
    exact absurd h (by simp)

theorem expchar_not_ws {c : Char} (h : c = 'e' ∨ c = 'E') : isWS c = false := by
  rcases h with h | h
  · rw [h]; simp [isWS]
  · rw [h]; simp [isWS]

theorem dotchar_not_ws {c : Char} (h : c = '.') : isWS c = false := by
  rw [h]; simp [isWS]

theorem mant_chars {m : Str}
    (hne : ((breakAt (fun c => c = '.') m).1 ++ ((breakAt (fun c => c = '.') m).2).getD []) ≠ [])
    (hdi : ((breakAt (fun c => c = '.') m).1).all digit? = true)
    (hdf : ((((breakAt (fun c => c = '.') m).2)).getD []).all digit? = true) :
    m ≠ [] ∧ ∀ c ∈ m, isWS c = false := by
  cases hdot : (breakAt (fun c => c = '.') m).2 with
  | none =>
    have hsplit : breakAt (fun c => c = '.') m = ((breakAt (fun c => c = '.') m).1, none) := by
      rw [← hdot]
    have hm : m = (breakAt (fun c => c = '.') m).1 := breakAt_none hsplit
    rw [hdot] at hne
    constructor
    · rw [hm]; simpa using hne
    · rw [hm]; exact all_not_ws_of_digits hdi
  | some fp =>
    have hsplit : breakAt (fun c => c = '.') m = ((breakAt (fun c => c = '.') m).1, some fp) := by
      rw [← hdot]
    obtain ⟨d, hd, hmm⟩ := breakAt_some hsplit
    rw [hdot] at hdf
    constructor
    · rw [hmm]; simp
    · rw [hmm]
      intro c hc
      rcases List.mem_append.mp hc with h1 | h1
      · exact all_not_ws_of_digits hdi c h1
      · rcases List.mem_cons.mp h1 with h2 | h2
        · exact h2 ▸ dotchar_not_ws (by simpa using hd)
        · exact all_not_ws_of_digits hdf c h2

theorem exp_chars {es : Str}
    (hdig : ((parseSign es).2).all digit? = true) :
    ∀ c ∈ es, isWS c = false := by
  obtain ⟨-, hs⟩ := parseSign_cases es
  rcases hs with hs | ⟨d, hd, hs⟩
  · rw [hs]; exact all_not_ws_of_digits hdig
  · rw [hs]
    intro c hc
    rcases List.mem_cons.mp hc with h1 | h1
    · exact h1 ▸ hd
    · exact all_not_ws_of_digits hdig c h1

/-- A token accepted by the float grammar is nonempty and whitespace-free. -/
theorem parseF32_chars {s : Str} {v : ℚ} (h : parseF32 s = some v) :
    s ≠ [] ∧ ∀ c ∈ s, isWS c = false := by
  simp only [parseF32] at h
  have hr1 : (parseSign s).2 ≠ [] ∧ ∀ c ∈ (parseSign s).2, isWS c = false := by
    cases hE : (breakAt (fun c => c = 'e' || c = 'E') (parseSign s).2).2 with
    | none =>
      rw [hE] at h
      dsimp only at h
      by_cases hcond :
          ((breakAt (fun c => c = '.') (breakAt (fun c => c = 'e' || c = 'E') (parseSign s).2).1).1
            ++ ((breakAt (fun c => c = '.') (breakAt (fun c => c = 'e' || c = 'E') (parseSign s).2).1).2).getD []) ≠ []
          ∧ ((breakAt (fun c => c = '.') (breakAt (fun c => c = 'e' || c = 'E') (parseSign s).2).1).1).all digit?
          ∧ (((breakAt (fun c => c = '.') (breakAt (fun c => c = 'e' || c = 'E') (parseSign s).2).1).2).getD []).all digit?
      · have hsplit : breakAt (fun c => c = 'e' || c = 'E') (parseSign s).2
            = ((breakAt (fun c => c = 'e' || c = 'E') (parseSign s).2).1, none) := by
          rw [← hE]
        have hm := breakAt_none hsplit
        obtain ⟨hm1, hm2⟩ := mant_chars hcond.1 hcond.2.1 hcond.2.2
        rw [hm]
        exact ⟨hm1, hm2⟩
      · rw [if_neg hcond] at h
        exact absurd h (by simp)
    | some es =>
      rw [hE] at h
      dsimp only at h
      by_cases hec : (parseSign es).2 ≠ [] ∧ ((parseSign es).2).all digit?
      · rw [if_pos hec] at h
        dsimp only at h
        by_cases hcond :
            ((breakAt (fun c => c = '.') (breakAt (fun c => c = 'e' || c = 'E') (parseSign s).2).1).1
              ++ ((breakAt (fun c => c = '.') (breakAt (fun c => c = 'e' || c = 'E') (parseSign s).2).1).2).getD []) ≠ []
            ∧ ((breakAt (fun c => c = '.') (breakAt (fun c => c = 'e' || c = 'E') (parseSign s).2).1).1).all digit?
            ∧ (((breakAt (fun c => c = '.') (breakAt (fun c => c = 'e' || c = 'E') (parseSign s).2).1).2).getD []).all digit?
        · have hsplit : breakAt (fun c => c = 'e' || c = 'E') (parseSign s).2
              = ((breakAt (fun c => c = 'e' || c = 'E') (parseSign s).2).1, some es) := by
            rw [← hE]
          obtain ⟨d, hd, hmm⟩ := breakAt_some hsplit
          obtain ⟨hm1, hm2⟩ := mant_chars hcond.1 hcond.2.1 hcond.2.2
          constructor
          · rw [hmm]
            intro hfalse
            rcases List.append_eq_nil.mp hfalse with ⟨-, h2⟩
            exact absurd h2 (by simp)
          · rw [hmm]
            intro c hc
            rcases List.mem_append.mp hc with h1 | h1
            · exact hm2 c h1
            · rcases List.mem_cons.mp h1 with h2 | h2
              · exact h2 ▸ expchar_not_ws (by simpa using hd)
              · exact exp_chars hec.2 c h2
        · rw [if_neg hcond] at h
          exact absurd h (by simp)
      · rw [if_neg hec] at h
        exact absurd h (by simp)
  obtain ⟨-, hs⟩ := parseSign_cases s
  rcases hs with hs | ⟨d, hd, hs⟩
  · rw [hs]; exact hr1
  · refine ⟨by rw [hs]; simp, ?_⟩
    rw [hs]
    intro c hc
    rcases List.mem_cons.mp hc with h1 | h1
    · exact h1 ▸ hd
    · exact hr1.2 c h1

theorem getLastD_irrel {α : Type} : ∀ {l : List α}, l ≠ [] → ∀ d d' : α, l.getLastD d = l.getLastD d'
  | [], h, _, _ => absurd rfl h
  | [_], _, _, _ => rfl
  | _ :: _ :: _, _, _, _ => rfl

theorem getLastD_append_right {α : Type} :
    ∀ (l₁ l₂ : List α), l₂ ≠ [] → ∀ d : α, (l₁ ++ l₂).getLastD d = l₂.getLastD d
  | [], _, _ => fun _ => rfl
  | x :: xs, l₂, h => fun d => by
    rw [List.cons_append, List.getLastD_cons, getLastD_append_right xs l₂ h x]
    exact getLastD_irrel h x d

theorem last_char_not_ws {t : Str} (hne : t ≠ []) (hws : ∀ c ∈ t, isWS c = false) (d : Char) :
    isWS (t.getLastD d) = false :=
  hws _ (getLastD_mem t d hne)

theorem splitChar_five_tokens {t1 t2 t3 t4 t5 : Str}
    (h1 : ' ' ∉ t1) (h2 : ' ' ∉ t2) (h3 : ' ' ∉ t3) (h4 : ' ' ∉ t4) (h5 : ' ' ∉ t5) :
    splitChar ' ' (t1 ++ ' ' :: (t2 ++ ' ' :: (t3 ++ ' ' :: (t4 ++ ' ' :: t5))))
      = [t1, t2, t3, t4, t5] := by
  rw [splitChar_append_sep _ h1, splitChar_append_sep _ h2, splitChar_append_sep _ h3,
    splitChar_append_sep _ h4, splitChar_eq_single h5]

theorem parse_command_test_tokens {s t1 t2 t3 t4 : Str} {id : Int} {a b c : ℚ}
    (hsplit : splitChar ' ' s = [str ("TEST"), t1, t2, t3, t4])
    (hid : parseI32 t1 = some id) (ha : parseF32 t2 = some a)
    (hb : parseF32 t3 = some b) (hc : parseF32 t4 = some c)
    (hver : CommandPacket.verify_packet ⟨id, .TEST, [a, b, c]⟩ = Except.ok ()) :
    CommandPacket.parse_packet_string s = some (Except.ok ⟨id, .TEST, [a, b, c]⟩) := by
  simp only [CommandPacket.parse_packet_string, hsplit, List.get?_cons_zero, List.get?_cons_succ,
    List.length_cons, List.length_nil, hid, ha, hb, hc]
  rw [if_neg (by decide), if_pos (by decide), if_neg (by decide)]
  simp only [hver]

theorem parse_data_tokens {s t1 t2 t3 t4 : Str} {id subid mt : Int} {v : ℚ}
    (hsplit : splitChar ' ' s = [str ("DATA"), t1, t2, t3, t4])
    (hid : parseI32 t1 = some id) (hsub : parseI32 t2 = some subid)
    (hmt : parseI32 t3 = some mt) (hv : parseF32 t4 = some v)
    (hver : DataPacket.verify_packet ⟨id, subid, PacketType.num_to_packet_type mt, v⟩
      = Except.ok ()) :
    DataPacket.parse_packet_string s
      = some (Except.ok ⟨id, subid, PacketType.num_to_packet_type mt, v⟩) := by
  simp only [DataPacket.parse_packet_string, hsplit, List.get?_cons_zero, List.get?_cons_succ,
    hid, hsub, hmt, hv, Option.isNone_some, Bool.false_eq_true, if_false]
  rw [if_pos (by decide)]
  simp only [hver]

theorem parseI32_to_num (ty : PacketType) : parseI32 (fmtInt ty.to_num) = some ty.to_num := by
  cases ty <;> decide

theorem num_to_packet_type_to_num (ty : PacketType) :
    PacketType.num_to_packet_type ty.to_num = ty := by
  cases ty <;> rfl

/-- Trimming a newline-terminated five-token line recovers the line itself,
and splitting it on spaces recovers the tokens. -/
theorem trim_split_five (t1 t2 t3 t4 t5 : Str)
    (h1ne : t1 ≠ []) (h1 : ∀ c ∈ t1, isWS c = false)
    (h2 : ∀ c ∈ t2, isWS c = false) (h3 : ∀ c ∈ t3, isWS c = false)
    (h4 : ∀ c ∈ t4, isWS c = false)
    (h5ne : t5 ≠ []) (h5 : ∀ c ∈ t5, isWS c = false) :
    splitChar ' ' (trim ((t1 ++ ' ' :: (t2 ++ ' ' :: (t3 ++ ' ' :: (t4 ++ ' ' :: t5)))) ++ ['\n']))
      = [t1, t2, t3, t4, t5] := by
  obtain ⟨c, t1', rfl⟩ : ∃ c t1', t1 = c :: t1' := by
    cases t1 with
    | nil => exact absurd rfl h1ne
    | cons c t => exact ⟨c, t, rfl⟩
  have e1 := getLastD_append_right t1' (' ' :: (t2 ++ ' ' :: (t3 ++ ' ' :: (t4 ++ ' ' :: t5)))) (by simp)
  have e2 := getLastD_append_right t2 (' ' :: (t3 ++ ' ' :: (t4 ++ ' ' :: t5))) (by simp)
  have e3 := getLastD_append_right t3 (' ' :: (t4 ++ ' ' :: t5)) (by simp)
  have e4 := getLastD_append_right t4 (' ' :: t5) (by simp)
  have hlast : isWS ((c :: (t1' ++ ' ' :: (t2 ++ ' ' :: (t3 ++ ' ' :: (t4 ++ ' ' :: t5))))).getLastD c)
      = false := by
    rw [List.getLastD_cons, e1 c, List.getLastD_cons, e2 ' ', List.getLastD_cons, e3 ' ',
      List.getLastD_cons, e4 ' ', List.getLastD_cons]
    exact last_char_not_ws h5ne h5 ' '
  rw [List.cons_append]
  rw [trim_append_newline (h1 c (List.mem_cons_self c t1')) hlast]
  rw [← List.cons_append]
  exact splitChar_five_tokens (not_mem_space h1) (not_mem_space h2) (not_mem_space h3)
    (not_mem_space h4) (not_mem_space h5)

theorem stringify_parse_test_packet {p : CommandPacket} {a b c : ℚ}
    (hcmd : p.packet_command = PacketCommand.TEST)
    (hparams : p.packet_params = [a, b, c])
    (hver : p.verify_packet = Except.ok ())
    (hid : parseI32 (fmtInt p.packet_id) = some p.packet_id)
    (ha : parseF32 (fmtF32 a) = some a)
    (hb : parseF32 (fmtF32 b) = some b)
    (hc : parseF32 (fmtF32 c) = some c) :
    (CommandPacket.stringify p).map (fun line => CommandPacket.parse_packet_string (trim line))
      = some (some (Except.ok p)) := by
  obtain ⟨pid, pcmd, pparams⟩ := p
  simp only at hcmd hparams hid
  subst hcmd
  subst hparams
  obtain ⟨hidne, hidws⟩ := parseI32_chars hid
  obtain ⟨hane, haws⟩ := parseF32_chars ha
  obtain ⟨hbne, hbws⟩ := parseF32_chars hb
  obtain ⟨hcne, hcws⟩ := parseF32_chars hc
  have hshape : str ("TEST ") ++ fmtInt pid ++ ' ' :: fmtF32 a ++ ' ' :: fmtF32 b
        ++ ' ' :: fmtF32 c ++ ['\n']
      = (str ("TEST") ++ ' ' :: (fmtInt pid ++ ' ' :: (fmtF32 a ++ ' ' :: (fmtF32 b
        ++ ' ' :: fmtF32 c)))) ++ ['\n'] := by
    have h0 : str ("TEST ") = str ("TEST") ++ [' '] := rfl
    rw [h0]
    simp [List.append_assoc]
  have hsplit := trim_split_five (str ("TEST")) (fmtInt pid) (fmtF32 a) (fmtF32 b) (fmtF32 c)
    (by decide) (by decide) hidws haws hbws hcne hcws
  simp only [CommandPacket.stringify, List.get?_cons_zero, List.get?_cons_succ, Option.map_some,
    hshape]
  simp only [Option.map_some']
  rw [parse_command_test_tokens hsplit hid ha hb hc hver]

theorem stringify_parse_data_packet {d : DataPacket}
    (hver : d.verify_packet = Except.ok ())
    (hid : parseI32 (fmtInt d.packet_id) = some d.packet_id)
    (hsub : parseI32 (fmtInt d.packet_subid) = some d.packet_subid)
    (hv : parseF32 (fmtF32 d.packet_data) = some d.packet_data) :
    DataPacket.parse_packet_string (trim (DataPacket.stringify d)) = some (Except.ok d) := by
  obtain ⟨did, dsub, dty, dv⟩ := d
  simp only at hver hid hsub hv
  obtain ⟨hidne, hidws⟩ := parseI32_chars hid
  obtain ⟨hsubne, hsubws⟩ := parseI32_chars hsub
  obtain ⟨htyne, htyws⟩ := parseI32_chars (parseI32_to_num dty)
  obtain ⟨hvne, hvws⟩ := parseF32_chars hv
  have hshape : DataPacket.stringify ⟨did, dsub, dty, dv⟩
      = (str ("DATA") ++ ' ' :: (fmtInt did ++ ' ' :: (fmtInt dsub ++ ' ' :: (fmtInt dty.to_num
          ++ ' ' :: fmtF32 dv)))) ++ ['\n'] := by
    have h0 : str ("DATA ") = str ("DATA") ++ [' '] := rfl
    simp only [DataPacket.stringify]
    rw [h0]
    simp [List.append_assoc]
  rw [hshape]
  have hsplit := trim_split_five (str ("DATA")) (fmtInt did) (fmtInt dsub) (fmtInt dty.to_num)
    (fmtF32 dv) (by decide) (by decide) hidws hsubws htyws hvne hvws
  have hver2 : DataPacket.verify_packet ⟨did, dsub, PacketType.num_to_packet_type dty.to_num, dv⟩
      = Except.ok () := by
    rw [num_to_packet_type_to_num]
    exact hver
  rw [parse_data_tokens hsplit hid hsub (parseI32_to_num dty) hv hver2,
    num_to_packet_type_to_num]

/-! ## C1: parse/render round-trip -/

/-- C1 (counterexample): the round-trip `parse(render(p)) == p` fails as
stated.  `CommandPacket::stringify` renders every command as a `TEST` line
and indexes the parameter vector unconditionally, so a valid `START`
packet panics when rendered; and the rendered line of a valid `TEST`
packet carries a trailing newline, so parsing it back fails on the last
numeric field instead of returning the packet. -/
theorem c1_roundtrip_counterexample :
    CommandPacket.stringify ⟨1, PacketCommand.START, []⟩ = none
    ∧ (CommandPacket.stringify ⟨1, PacketCommand.TEST, [0, 10, 1]⟩).map
        CommandPacket.parse_packet_string
      = some (some (Except.error ("[parse_packet_string] Invalid packet parameter types."))) := by
  constructor
  · rfl
  · with_unfolding_all decide

/-- C1 (amended): for valid `TEST` command packets and valid data packets,
rendering and then parsing the line *trimmed of its terminating newline*
returns the original packet, provided each numeric field's rendering
re-parses to itself (which Rust's float/int formatting guarantees);
`START`/`END` packets cannot be round-tripped at all since `stringify`
panics on their empty parameter vector. -/
theorem c1_roundtrip_amended :
    (∀ (p : CommandPacket) (a b c : ℚ),
      p.packet_command = PacketCommand.TEST →
      p.packet_params = [a, b, c] →
      p.verify_packet = Except.ok () →
      parseI32 (fmtInt p.packet_id) = some p.packet_id →
      parseF32 (fmtF32 a) = some a →
      parseF32 (fmtF32 b) = some b →
      parseF32 (fmtF32 c) = some c →
      (CommandPacket.stringify p).map (fun line => CommandPacket.parse_packet_string (trim line))
        = some (some (Except.ok p)))
    ∧ (∀ d : DataPacket,
      d.verify_packet = Except.ok () →
      parseI32 (fmtInt d.packet_id) = some d.packet_id →
      parseI32 (fmtInt d.packet_subid) = some d.packet_subid →
      parseF32 (fmtF32 d.packet_data) = some d.packet_data →
      DataPacket.parse_packet_string (trim (DataPacket.stringify d)) = some (Except.ok d)) :=
  ⟨fun _ _ _ _ hcmd hparams hver hid ha hb hc =>
    stringify_parse_test_packet hcmd hparams hver hid ha hb hc,
   fun _ hver hid hsub hv => stringify_parse_data_packet hver hid hsub hv⟩

/-- C1 (witness): the amended round-trip at the concrete valid packets
`TEST 1 0 10 1` and `DATA 1 0 0 0.5`. -/
theorem c1_roundtrip_witness :
    (CommandPacket.stringify ⟨1, PacketCommand.TEST, [0, 10, 1]⟩).map
        (fun line => CommandPacket.parse_packet_string (trim line))
      = some (some (Except.ok ⟨1, PacketCommand.TEST, [0, 10, 1]⟩))
    ∧ DataPacket.parse_packet_string (trim (DataPacket.stringify ⟨1, 0, PacketType.VOLTAGE, 1/2⟩))
      = some (Except.ok ⟨1, 0, PacketType.VOLTAGE, 1/2⟩) :=
  ⟨c1_roundtrip_amended.1 ⟨1, PacketCommand.TEST, [0, 10, 1]⟩ 0 10 1 rfl rfl
      (by with_unfolding_all decide) (by with_unfolding_all decide)
      (by with_unfolding_all decide) (by with_unfolding_all decide)
      (by with_unfolding_all decide),
   c1_roundtrip_amended.2 ⟨1, 0, PacketType.VOLTAGE, 1/2⟩
      (by with_unfolding_all decide) (by with_unfolding_all decide)
      (by with_unfolding_all decide) (by with_unfolding_all decide)⟩

/-! ## C2: malformed lines -/

/-- C2: `DataPacket::parse_packet_string` indexes `vec[1]`…`vec[4]` with no
token-count check, so a `DATA` line with too few tokens panics (modelled
as `none`) whenever the tokens run out before some present field fails to
parse; `DATA 1` and `DATA 1 2 3` panic, while `DATA x` still reaches the
error path because the `||` chain short-circuits on the bad field first. -/
theorem c2_data_arity_panic :
    DataPacket.parse_packet_string (str ("DATA 1")) = none
    ∧ DataPacket.parse_packet_string (str ("DATA 1 2 3")) = none
    ∧ DataPacket.parse_packet_string (str ("DATA x"))
      = some (Except.error ("Invalid packet parameter.")) := by
  refine ⟨?_, ?_, ?_⟩ <;> with_unfolding_all decide

/-! ## C3: unknown measurement kinds -/

theorem num_to_packet_type_out_of_range {k : Int} (hk : k < 0 ∨ 3 < k) :
    PacketType.num_to_packet_type k = PacketType.VOLTAGE := by
  have h0 : k ≠ 0 := by omega
  have h1 : k ≠ 1 := by omega
  have h2 : k ≠ 2 := by omega
  have h3 : k ≠ 3 := by omega
  simp [PacketType.num_to_packet_type, h0, h1, h2, h3]

/-- C3 (counterexample): a tokenized `DATA` line with kind code `7`
parses *successfully* into a packet with the defaulted kind `VOLTAGE`
instead of failing with an unknown-measurement-kind error. -/
theorem c3_unknown_kind_counterexample :
    DataPacket.parse_packet_string (str ("DATA 1 0 7 1.0"))
      = some (Except.ok ⟨1, 0, PacketType.VOLTAGE, 1⟩) := by
  with_unfolding_all decide

/-- C3 (amended): `PacketType::num_to_packet_type` maps every kind code
outside `0..3` to the default `VOLTAGE`, and a well-tokenized `DATA` line
with such a code parses successfully into a `VOLTAGE` packet — no error
is ever produced for an out-of-range kind code. -/
theorem c3_unknown_kind_defaults :
    (∀ k : Int, (k < 0 ∨ 3 < k) → PacketType.num_to_packet_type k = PacketType.VOLTAGE)
    ∧ ∀ (s t1 t2 t3 t4 : Str) (id subid k : Int) (v : ℚ),
        splitChar ' ' s = [str ("DATA"), t1, t2, t3, t4] →
        parseI32 t1 = some id → parseI32 t2 = some subid →
        parseI32 t3 = some k → parseF32 t4 = some v →
        (k < 0 ∨ 3 < k) → 0 ≤ id → 0 ≤ subid →
        DataPacket.parse_packet_string s = some (Except.ok ⟨id, subid, PacketType.VOLTAGE, v⟩) := by
  constructor
  · exact fun _ hk => num_to_packet_type_out_of_range hk
  · intro s t1 t2 t3 t4 id subid k v hsplit ht1 ht2 ht3 ht4 hk hid0 hsub0
    have hver : DataPacket.verify_packet ⟨id, subid, PacketType.num_to_packet_type k, v⟩
        = Except.ok () := by
      simp only [DataPacket.verify_packet]
      rw [if_neg (not_lt.mpr hid0), if_neg (not_lt.mpr hsub0)]
    rw [parse_data_tokens hsplit ht1 ht2 ht3 ht4 hver, num_to_packet_type_out_of_range hk]

/-- C3 (witness): the amended statement at the concrete line
`DATA 1 0 7 1.0`. -/
theorem c3_unknown_kind_witness :
    PacketType.num_to_packet_type 7 = PacketType.VOLTAGE
    ∧ DataPacket.parse_packet_string (str ("DATA 1 0 7 1.0"))
      = some (Except.ok ⟨1, 0, PacketType.VOLTAGE, 1⟩) :=
  ⟨c3_unknown_kind_defaults.1 7 (by decide),
   c3_unknown_kind_defaults.2 (str ("DATA 1 0 7 1.0")) (str ("1")) (str ("0")) (str ("7"))
      (str ("1.0")) 1 0 7 1 (by decide) (by decide) (by decide) (by decide)
      (by with_unfolding_all decide) (by decide) (by decide) (by decide)⟩

/-! ## C4: TEST parameter validation -/

/-- C4: the resolution check in `CommandPacket::verify_packet` uses `&&`
where the intent (its own comment and error message: resolution must lie
in `(0, end - start]`) requires `||`: a `TEST` packet with a zero (or
negative) resolution passes validation, contradicting the documented
invariant; the claim's explicit scenario `TEST 1 600 0 1` (end <= start)
does fail as specified. -/
theorem c4_verify_resolution_bug :
    CommandPacket.verify_packet ⟨1, PacketCommand.TEST, [0, 600, 0]⟩ = Except.ok ()
    ∧ CommandPacket.verify_packet ⟨1, PacketCommand.TEST, [0, 600, -5]⟩ = Except.ok ()
    ∧ CommandPacket.parse_packet_string (str ("TEST 1 600 0 1"))
      = some (Except.error ("[verify_packet] Voltage End [1] should be strictly >= Voltage Start [0].")) := by
  refine ⟨?_, ?_, ?_⟩ <;> with_unfolding_all decide


/-! ## Stream reassembly (`communication.rs`, `execute_test` receive loop) -/

/-- The pure reassembly step of `execute_test`'s receive loop
(`communication.rs` lines 104-134): append the received chunk to the
buffer, split on `;`, yield every complete line (trimmed) in order, and
retain the unterminated remainder as the new buffer. -/
def reassemble (buffer chunk : Str) : List Str × Str :=
  let lines := splitChar ';' (buffer ++ chunk)
  (lines.dropLast.map trim, lines.getLastD [])

/-- Feed a sequence of received chunks through the reassembly step,
collecting the complete lines in order. -/
def feedChunks (buffer : Str) : List Str → List Str × Str
  | [] => ([], buffer)
  | c :: cs =>
    let r1 := reassemble buffer c
    let r2 := feedChunks r1.2 cs
    (r1.1 ++ r2.1, r2.2)

theorem dropLast_append_right {α : Type} :
    ∀ (l₁ : List α) {l₂ : List α}, l₂ ≠ [] → (l₁ ++ l₂).dropLast = l₁ ++ l₂.dropLast
  | [], _, _ => by simp
  | x :: xs, l₂, h => by
    rw [List.cons_append, List.dropLast_cons_of_ne_nil (by
      intro hfalse
      rcases List.append_eq_nil.mp hfalse with ⟨-, h2⟩
      exact h h2), dropLast_append_right xs h, List.cons_append]

theorem feedChunks_join {buffer : Str} (hbuf : ';' ∉ buffer) :
    ∀ chunks : List Str, feedChunks buffer chunks = reassemble buffer (List.flatten chunks) := by
  intro chunks
  induction chunks generalizing buffer with
  | nil =>
    simp only [feedChunks, List.flatten_nil, List.append_nil, reassemble,
      splitChar_eq_single hbuf]
    rfl
  | cons c cs ih =>
    have hb1 : ';' ∉ (splitChar ';' (buffer ++ c)).getLastD [] :=
      mem_splitChar_not_mem
        (getLastD_mem (splitChar ';' (buffer ++ c)) [] (splitChar_ne_nil ';' (buffer ++ c)))
    have hflat := splitChar_append_flat ';' (buffer ++ c) (List.flatten cs)
    have hjoin : buffer ++ (c :: cs).flatten = (buffer ++ c) ++ cs.flatten := by
      simp [List.append_assoc]
    simp only [feedChunks, reassemble, ih hb1, hjoin, hflat]
    rw [Prod.mk.injEq]
    constructor
    · rw [dropLast_append_right _ (splitChar_ne_nil ';' _), List.map_append]
    · rw [getLastD_append_right _ _ (splitChar_ne_nil ';' _)]

/-- C5 (counterexample): feeding `"A;B;C"` in one chunk does *not* yield
`["A","B","C"]`: the code only yields `;`-terminated lines, so the
unterminated `"C"` stays in the buffer. -/
theorem c5_reassembly_counterexample :
    (feedChunks [] [str ("A;B;C")]).1 ≠ [str ("A"), str ("B"), str ("C")] := by
  with_unfolding_all decide

/-- C5 (amended): the reassembly loop is chunking-invariant — feeding any
chunk sequence yields exactly the lines of the concatenated stream, so a
line split across any number of chunk boundaries is reassembled and
multiple complete lines in one chunk are split, each yielded exactly once
in order.  Concretely, feeding `"TEST 1 0 10"` then `" 1;"` yields exactly
`["TEST 1 0 10 1"]`, and feeding `"A;B;C"` in one chunk yields exactly
`["A","B"]` with `"C"` retained in the buffer (not `["A","B","C"]`). -/
theorem c5_reassembly_amended :
    (∀ chunks : List Str, feedChunks [] chunks = reassemble [] (List.flatten chunks))
    ∧ feedChunks [] [str ("TEST 1 0 10"), str (" 1;")] = ([str ("TEST 1 0 10 1")], [])
    ∧ feedChunks [] [str ("A;B;C")] = ([str ("A"), str ("B")], str ("C")) := by
  refine ⟨feedChunks_join (by simp), ?_, ?_⟩ <;> with_unfolding_all decide

/-! ## Live collection loop (`communication.rs`, `execute_test`) -/

/-- State of `execute_test`'s receive loop: line buffer, collected data
packets, last seen sub-id, the progress bar (capacity and position — both
written, never read back), and the `end` flag. -/
structure CollectState where
  buffer : Str
  data_packets : List DataPacket
  cur_subid : Int
  pb_total : Nat
  pb_pos : Nat
  done : Bool
deriving DecidableEq, Repr

/-- Rust's saturating `as u64` cast from `f32`, on the exact-rational model. -/
def ratToU64 (q : ℚ) : Nat :=
  if q < 0 then 0 else min q.floor.toNat (2 ^ 64 - 1)

/-- The progress-bar capacity computed at `communication.rs` line 92:
`((cmd_args[1] - cmd_args[0]) / cmd_args[2]) as u64 + 1`; `none` models
the index panic when the parameter vector is shorter than 3. -/
def expectedCount (params : List ℚ) : Option Nat :=
  match params.get? 1, params.get? 0, params.get? 2 with
  | some b, some a, some c => some (ratToU64 ((b - a) / c) + 1)
  | _, _, _ => none

/-- Initial loop state of `execute_test` step 4. -/
def initState (cmd : CommandPacket) : Option CollectState :=
  (expectedCount cmd.packet_params).map fun n =>
    { buffer := [], data_packets := [], cur_subid := 0, pb_total := n, pb_pos := 0,
      done := false }

/-- One complete line of the inner `while lines.len() > 1` loop body
(`communication.rs` lines 110-131).  `none` models the panics on
`res_vec[1]` (index) and `.unwrap()` (parse) for an `END`-headed line with
a missing or non-integer second token. -/
def processLine (cmd_id : Int) (st : CollectState) (line : Str) : Option CollectState :=
  let res := trim line
  match DataPacket.parse_packet_string res with
  | none => none
  | some (Except.ok d) =>
    let st1 :=
      if d.packet_subid > st.cur_subid then
        { st with pb_pos := d.packet_subid.toNat, cur_subid := d.packet_subid }
      else st
    some { st1 with data_packets := st1.data_packets ++ [d] }
  | some (Except.error _) =>
    if (splitChar ' ' res).getD 0 [] = str ("END") then
      match (splitChar ' ' res).get? 1 with
      | none => none
      | some t1 =>
        match parseI32 t1 with
        | none => none
        | some j => if j = cmd_id then some { st with done := true } else some st
    else some st

/-- The complete lines of one chunk, processed in order. -/
def processLines (cmd_id : Int) : CollectState → List Str → Option CollectState
  | st, [] => some st
  | st, l :: ls =>
    match processLine cmd_id st l with
    | none => none
    | some st1 => processLines cmd_id st1 ls

/-- One iteration of the receive loop on a successfully received chunk
(`communication.rs` lines 104-135): append to the buffer, process every
complete `;`-terminated line, retain the unterminated remainder. -/
def processChunk (cmd_id : Int) (st : CollectState) (chunk : Str) : Option CollectState :=
  let lines := splitChar ';' (st.buffer ++ chunk)
  match processLines cmd_id st lines.dropLast with
  | none => none
  | some st1 => some { st1 with buffer := lines.getLastD [] }

/-- The outer `while !end` loop over the successive received chunks; it
stops consuming once `end` is set. -/
def runCollect (cmd_id : Int) : CollectState → List Str → Option CollectState
  | st, [] => some st
  | st, c :: cs =>
    if st.done then some st
    else
      match processChunk cmd_id st c with
      | none => none
      | some st1 => runCollect cmd_id st1 cs

/-- The collection phase of `execute_test` (steps 4-5): `none` on a panic,
`some none` when the chunk stream is exhausted while still collecting (the
real loop keeps polling forever), `some (some packet_set)` when a matching
`END` closed the regime and the packet set is returned to the caller. -/
def execute_collect (cmd : CommandPacket) (chunks : List Str) : Option (Option PacketSet) :=
  match initState cmd with
  | none => none
  | some st0 =>
    match runCollect cmd.packet_id st0 chunks with
    | none => none
    | some st => if st.done then some (some ⟨cmd, st.data_packets⟩) else some none

/-- A reassembled line that sets the `end` flag in `execute_test`: first
token `END`, second token an integer equal to the active command id. -/
def isMatchingEnd (cmd_id : Int) (line : Str) : Bool :=
  ((splitChar ' ' (trim line)).getD 0 [] == str ("END"))
    && (((splitChar ' ' (trim line)).get? 1).bind parseI32 == some cmd_id)

/-- The loop state with the progress bar erased: everything `execute_test`
ever reads back. -/
structure CollectView where
  buffer : Str
  data_packets : List DataPacket
  cur_subid : Int
  done : Bool
deriving DecidableEq, Repr

def projState (st : CollectState) : CollectView :=
  ⟨st.buffer, st.data_packets, st.cur_subid, st.done⟩

theorem dp_parse_not_data {s : Str} (h : (splitChar ' ' s).getD 0 [] ≠ str ("DATA")) :
    DataPacket.parse_packet_string s = some (Except.error ("Invalid packet type.")) := by
  cases hsp : splitChar ' ' s with
  | nil => exact absurd hsp (splitChar_ne_nil ' ' s)
  | cons t0 ts =>
    rw [hsp] at h
    simp only [DataPacket.parse_packet_string, hsp, List.get?_cons_zero]
    rw [if_neg (by simpa using h)]

theorem dp_ok_first_token {s : Str} {d : DataPacket}
    (h : DataPacket.parse_packet_string s = some (Except.ok d)) :
    (splitChar ' ' s).getD 0 [] = str ("DATA") := by
  by_contra hne
  rw [dp_parse_not_data hne] at h
  simp at h

theorem beq_str_false {a b : Str} (h : a ≠ b) : (a == b) = false := by
  rw [beq_eq_false_iff_ne]
  exact h

theorem processLine_done {cmd_id : Int} {st st' : CollectState} {l : Str}
    (h : processLine cmd_id st l = some st') :
    st'.done = (st.done || isMatchingEnd cmd_id l) := by
  simp only [processLine] at h
  split at h
  · exact absurd h (by simp)
  · rename_i d heq
    have hft := dp_ok_first_token heq
    have hme : isMatchingEnd cmd_id l = false := by
      unfold isMatchingEnd
      rw [hft, beq_str_false (by decide), Bool.false_and]
    simp only [Option.some.injEq] at h
    subst h
    by_cases hgt : d.packet_subid > st.cur_subid <;> simp [hgt, hme]
  · rename_i e heq
    by_cases hEND : (splitChar ' ' (trim l)).getD 0 [] = str ("END")
    · rw [if_pos hEND] at h
      split at h
      · exact absurd h (by simp)
      · rename_i t1 hv1
        split at h
        · exact absurd h (by simp)
        · rename_i j hp
          by_cases hj : j = cmd_id
          · rw [if_pos hj] at h
            simp only [Option.some.injEq] at h
            subst h
            have hme : isMatchingEnd cmd_id l = true := by
              unfold isMatchingEnd
              rw [Bool.and_eq_true]
              refine ⟨beq_iff_eq.mpr hEND, ?_⟩
              rw [hv1, Option.some_bind, hp, hj]
              exact beq_self_eq_true _
            simp [hme]
          · rw [if_neg hj] at h
            simp only [Option.some.injEq] at h
            subst h
            have hme : isMatchingEnd cmd_id l = false := by
              unfold isMatchingEnd
              rw [hv1, Option.some_bind, hp]
              have hsj : (some j == some cmd_id) = false := by
                rw [beq_eq_false_iff_ne]
                exact fun hc => hj (Option.some.inj hc)
              rw [hsj, Bool.and_false]
            simp [hme]
    · rw [if_neg hEND] at h
      simp only [Option.some.injEq] at h
      subst h
      have hme : isMatchingEnd cmd_id l = false := by
        unfold isMatchingEnd
        rw [beq_str_false hEND, Bool.false_and]
      simp [hme]

theorem processLine_matching_end {cmd_id : Int} (st : CollectState) {l : Str}
    (h : isMatchingEnd cmd_id l = true) :
    processLine cmd_id st l = some { st with done := true } := by
  unfold isMatchingEnd at h
  rw [Bool.and_eq_true] at h
  obtain ⟨h0, h1⟩ := h
  rw [beq_iff_eq] at h0 h1
  obtain ⟨t1, hv1, hp⟩ : ∃ t1, (splitChar ' ' (trim l)).get? 1 = some t1
      ∧ parseI32 t1 = some cmd_id := by
    cases hv : (splitChar ' ' (trim l)).get? 1 with
    | none => rw [hv] at h1; simp at h1
    | some t1 =>
      rw [hv] at h1
      rw [Option.some_bind] at h1
      exact ⟨t1, rfl, h1⟩
  have hne : (splitChar ' ' (trim l)).getD 0 [] ≠ str ("DATA") := by
    rw [h0]
    decide
  have hdp := dp_parse_not_data hne
  simp only [processLine, hdp]
  rw [if_pos h0, hv1]
  dsimp only
  rw [hp]
  dsimp only
  rw [if_pos rfl]

theorem processLines_done {cmd_id : Int} :
    ∀ (lines : List Str) (st st' : CollectState),
      processLines cmd_id st lines = some st' →
      (∀ l ∈ lines, isMatchingEnd cmd_id l = false) → st'.done = st.done
  | [], st, st', h, _ => by
    simp only [processLines, Option.some.injEq] at h
    subst h
    rfl
  | l :: ls, st, st', h, hall => by
    simp only [processLines] at h
    split at h
    · exact absurd h (by simp)
    · rename_i st1 hpl
      have hd := processLine_done hpl
      rw [hall l (List.mem_cons_self l ls), Bool.or_false] at hd
      rw [processLines_done ls st1 st' h (fun x hx => hall x (List.mem_cons_of_mem l hx)), hd]

theorem runCollect_done {cmd_id : Int} :
    ∀ (chunks : List Str) (st st' : CollectState),
      runCollect cmd_id st chunks = some st' → st.done = false →
      (∀ l ∈ (splitChar ';' (st.buffer ++ List.flatten chunks)).dropLast,
        isMatchingEnd cmd_id l = false) →
      st'.done = false
  | [], st, st', h, hdone, _ => by
    simp only [runCollect, Option.some.injEq] at h
    subst h
    exact hdone
  | c :: cs, st, st', h, hdone, hall => by
    simp only [runCollect, hdone, Bool.false_eq_true, if_false] at h
    split at h
    · exact absurd h (by simp)
    · rename_i st1 hpc
      simp only [processChunk] at hpc
      split at hpc
      · exact absurd hpc (by simp)
      · rename_i st2 hpls
        simp only [Option.some.injEq] at hpc
        subst hpc
        have hjoin : st.buffer ++ (c :: cs).flatten = (st.buffer ++ c) ++ cs.flatten := by
          simp [List.append_assoc]
        have hflat := splitChar_append_flat ';' (st.buffer ++ c) (List.flatten cs)
        rw [hjoin, hflat, dropLast_append_right _ (splitChar_ne_nil ';' _)] at hall
        have hall1 : ∀ l ∈ (splitChar ';' (st.buffer ++ c)).dropLast,
            isMatchingEnd cmd_id l = false :=
          fun l hl => hall l (List.mem_append_left _ hl)
        have hall2 : ∀ l ∈ (splitChar ';'
              ((splitChar ';' (st.buffer ++ c)).getLastD [] ++ cs.flatten)).dropLast,
            isMatchingEnd cmd_id l = false :=
          fun l hl => hall l (List.mem_append_right _ hl)
        have hdone2 : st2.done = false := by
          rw [processLines_done _ st st2 hpls hall1]
          exact hdone
        exact runCollect_done cs _ st' h hdone2 hall2

theorem processLine_proj (cmd_id : Int) {st1 st2 : CollectState} (l : Str)
    (h : projState st1 = projState st2) :
    (processLine cmd_id st1 l).map projState = (processLine cmd_id st2 l).map projState := by
  obtain ⟨b1, dp1, cs1, pt1, pp1, dn1⟩ := st1
  obtain ⟨b2, dp2, cs2, pt2, pp2, dn2⟩ := st2
  simp only [projState, CollectView.mk.injEq] at h
  obtain ⟨hb, hd, hs, hdn⟩ := h
  subst hb
  subst hd
  subst hs
  subst hdn
  simp only [processLine]
  cases DataPacket.parse_packet_string (trim l) with
  | none => rfl
  | some r =>
    cases r with
    | ok d =>
      by_cases hgt : d.packet_subid > cs1 <;> simp [hgt, projState]
    | error e =>
      dsimp only
      by_cases hEND : (splitChar ' ' (trim l)).getD 0 [] = str ("END")
      · simp only [if_pos hEND]
        cases (splitChar ' ' (trim l)).get? 1 with
        | none => rfl
        | some t1 =>
          dsimp only
          cases parseI32 t1 with
          | none => rfl
          | some j =>
            dsimp only
            by_cases hj : j = cmd_id
            · simp only [if_pos hj]
              simp [projState]
            · simp only [if_neg hj]
              simp [projState]
      · simp only [if_neg hEND]
        simp [projState]

theorem processLines_proj (cmd_id : Int) :
    ∀ (lines : List Str) {st1 st2 : CollectState}, projState st1 = projState st2 →
      (processLines cmd_id st1 lines).map projState
        = (processLines cmd_id st2 lines).map projState
  | [], st1, st2, h => by simpa [processLines] using h
  | l :: ls, st1, st2, h => by
    have hpl := processLine_proj cmd_id l h
    cases h1 : processLine cmd_id st1 l with
    | none =>
      cases h2 : processLine cmd_id st2 l with
      | none => simp only [processLines, h1, h2]
      | some b =>
        rw [h1, h2] at hpl
        simp at hpl
    | some a =>
      cases h2 : processLine cmd_id st2 l with
      | none =>
        rw [h1, h2] at hpl
        simp at hpl
      | some b =>
        rw [h1, h2] at hpl
        simp only [Option.map_some', Option.some.injEq] at hpl
        simp only [processLines, h1, h2]
        exact processLines_proj cmd_id ls hpl

theorem processChunk_proj (cmd_id : Int) {st1 st2 : CollectState} (c : Str)
    (h : projState st1 = projState st2) :
    (processChunk cmd_id st1 c).map projState = (processChunk cmd_id st2 c).map projState := by
  have hbuf : st1.buffer = st2.buffer := congrArg CollectView.buffer h
  simp only [processChunk, hbuf]
  have hpls := processLines_proj cmd_id ((splitChar ';' (st2.buffer ++ c)).dropLast) h
  cases h1 : processLines cmd_id st1 (splitChar ';' (st2.buffer ++ c)).dropLast with
  | none =>
    cases h2 : processLines cmd_id st2 (splitChar ';' (st2.buffer ++ c)).dropLast with
    | none => simp
    | some b =>
      rw [h1, h2] at hpls
      simp at hpls
  | some a =>
    cases h2 : processLines cmd_id st2 (splitChar ';' (st2.buffer ++ c)).dropLast with
    | none =>
      rw [h1, h2] at hpls
      simp at hpls
    | some b =>
      rw [h1, h2] at hpls
      simp only [Option.map_some', Option.some.injEq] at hpls
      simp only [Option.map_some', Option.some.injEq, projState, CollectView.mk.injEq]
      simp only [projState, CollectView.mk.injEq] at hpls
      exact ⟨trivial, hpls.2.1, hpls.2.2.1, hpls.2.2.2⟩

theorem runCollect_proj (cmd_id : Int) :
    ∀ (chunks : List Str) {st1 st2 : CollectState}, projState st1 = projState st2 →
      (runCollect cmd_id st1 chunks).map projState
        = (runCollect cmd_id st2 chunks).map projState
  | [], st1, st2, h => by simpa [runCollect] using h
  | c :: cs, st1, st2, h => by
    have hdone : st1.done = st2.done := congrArg CollectView.done h
    simp only [runCollect, ← hdone]
    by_cases hd : st1.done = true
    · rw [if_pos hd, if_pos hd]
      simpa using h
    · rw [if_neg hd, if_neg hd]
      have hpc := processChunk_proj cmd_id c h
      cases h1 : processChunk cmd_id st1 c with
      | none =>
        cases h2 : processChunk cmd_id st2 c with
        | none => simp
        | some b =>
          rw [h1, h2] at hpc
          simp at hpc
      | some a =>
        cases h2 : processChunk cmd_id st2 c with
        | none =>
          rw [h1, h2] at hpc
          simp at hpc
        | some b =>
          rw [h1, h2] at hpc
          simp only [Option.map_some', Option.some.injEq] at hpc
          exact runCollect_proj cmd_id cs hpc

theorem expectedCount_formula {a b c : ℚ} (h0 : 0 ≤ (b - a) / c) (h1 : (b - a) / c < 2 ^ 64) :
    expectedCount [a, b, c] = some (((b - a) / c).floor.toNat + 1) := by
  simp only [expectedCount, List.get?_cons_zero, List.get?_cons_succ]
  unfold ratToU64
  rw [if_neg (not_lt.mpr h0)]
  have hp1 : ((b - a) / c).floor < (2 : ℤ) ^ 64 := by
    have hle := Int.floor_le ((b - a) / c)
    have h2 : ((b - a) / c : ℚ) < (((2 : ℤ) ^ 64 : ℤ) : ℚ) := by
      push_cast
      exact h1
    exact_mod_cast lt_of_le_of_lt hle h2
  have hp2 : (2 : ℤ) ^ 64 = 18446744073709551616 := by norm_num
  have hp3 : 2 ^ 64 - 1 = 18446744073709551615 := by norm_num
  rw [hp2] at hp1
  rw [hp3]
  have htn : ((b - a) / c).floor.toNat ≤ 18446744073709551615 := by omega
  rw [min_eq_left htn]

/-- A concrete loop state used by the witnesses: the initial state of
`execute_test` for the command `TEST 1 0 10 1` (expected count 11). -/
def cst0 : CollectState :=
  { buffer := [], data_packets := [], cur_subid := 0, pb_total := 11, pb_pos := 0, done := false }

/-! ## C9: completion is END-driven -/

/-- C9: during live collection (1) the expected group count is
`floor((v_end - v_start) / v_res) + 1` and feeds only the progress bar;
(2) the loop state never reaches `done` — i.e. never leaves the
collecting state — unless one of the reassembled complete lines is an
`END` line whose id parses to the active command id; (3) processing such
a matching `END` line sets `done` (the `CollectingData → Complete`
transition); (4) once `done` is set, `execute_test` returns the finished
packet set to the caller; (5) the progress-bar fields (hence the expected
count) never influence the buffer, the collected data, the sub-id or
completion: runs from two states differing only in the progress bar
project to equal results. -/
theorem c9_end_driven_completion :
    (∀ (a b c : ℚ), 0 ≤ (b - a) / c → (b - a) / c < 2 ^ 64 →
      expectedCount [a, b, c] = some (((b - a) / c).floor.toNat + 1))
    ∧ (∀ (cmd_id : Int) (chunks : List Str) (st st' : CollectState),
        runCollect cmd_id st chunks = some st' → st.done = false →
        (∀ l ∈ (splitChar ';' (st.buffer ++ List.flatten chunks)).dropLast,
          isMatchingEnd cmd_id l = false) →
        st'.done = false)
    ∧ (∀ (cmd_id : Int) (st : CollectState) (l : Str), isMatchingEnd cmd_id l = true →
        processLine cmd_id st l = some { st with done := true })
    ∧ (∀ (cmd : CommandPacket) (chunks : List Str) (st0 st' : CollectState),
        initState cmd = some st0 → runCollect cmd.packet_id st0 chunks = some st' →
        st'.done = true →
        execute_collect cmd chunks = some (some ⟨cmd, st'.data_packets⟩))
    ∧ (∀ (cmd_id : Int) (chunks : List Str) (st1 st2 : CollectState),
        projState st1 = projState st2 →
        (runCollect cmd_id st1 chunks).map projState
          = (runCollect cmd_id st2 chunks).map projState) := by
  refine ⟨fun a b c h0 h1 => expectedCount_formula h0 h1,
    fun cmd_id chunks st st' h hd hall => runCollect_done chunks st st' h hd hall,
    fun cmd_id st l h => processLine_matching_end st h,
    ?_,
    fun cmd_id chunks st1 st2 h => runCollect_proj cmd_id chunks h⟩
  intro cmd chunks st0 st' hinit hrun hdone
  simp only [execute_collect, hinit, hrun, hdone, if_true]

/-- C9 (witness): the five parts at concrete inputs — the count for
`TEST 1 0 10 1` is `10/1 + 1 = 11`; a chunk stream with only a data line
leaves the loop still collecting; the line `END 1` completes it; a
completed run returns the packet set; and two states differing only in
the progress bar run identically. -/
theorem c9_end_driven_completion_witness :
    expectedCount [0, 10, 1] = some 11
    ∧ ({ cst0 with data_packets := [⟨1, 0, PacketType.VOLTAGE, 1/2⟩] } : CollectState).done
        = false
    ∧ processLine 1 cst0 (str ("END 1")) = some { cst0 with done := true }
    ∧ execute_collect ⟨1, PacketCommand.TEST, [0, 10, 1]⟩ [str ("END 1;")]
        = some (some ⟨⟨1, PacketCommand.TEST, [0, 10, 1]⟩, []⟩)
    ∧ (runCollect 1 cst0 [str ("A;DATA 1 2 0 3;")]).map projState
        = (runCollect 1 { cst0 with pb_total := 99, pb_pos := 5 } [str ("A;DATA 1 2 0 3;")]).map
            projState :=
  ⟨by
    rw [c9_end_driven_completion.1 0 10 1 (by norm_num) (by norm_num)]
    with_unfolding_all decide,
   c9_end_driven_completion.2.1 1 [str ("DATA 1 0 0 0.5;")] cst0
      { cst0 with data_packets := [⟨1, 0, PacketType.VOLTAGE, 1/2⟩] }
      (by with_unfolding_all decide) (by decide) (by with_unfolding_all decide),
   c9_end_driven_completion.2.2.1 1 cst0 (str ("END 1")) (by with_unfolding_all decide),
   c9_end_driven_completion.2.2.2.1 ⟨1, PacketCommand.TEST, [0, 10, 1]⟩ [str ("END 1;")] cst0
      { cst0 with done := true } (by with_unfolding_all decide)
      (by with_unfolding_all decide) (by decide),
   c9_end_driven_completion.2.2.2.2 1 [str ("A;DATA 1 2 0 3;")] cst0
      { cst0 with pb_total := 99, pb_pos := 5 } (by decide)⟩

/-! ## C10: malformed END lines panic -/

/-- C10: a reassembled line whose first token is `END` but whose second
token is missing (`END`) or non-integer (`END x`) makes `execute_test`
panic — on the `res_vec[1]` index or on the `.unwrap()` of the integer
parse — instead of skipping the line; modelled end to end, the collection
phase evaluates to `none` (panic) on such input. -/
theorem c10_end_line_panics :
    execute_collect ⟨1, PacketCommand.TEST, [0, 10, 1]⟩ [str ("END;")] = none
    ∧ execute_collect ⟨1, PacketCommand.TEST, [0, 10, 1]⟩ [str ("END x;")] = none
    ∧ processLine 1 cst0 (str ("END")) = none
    ∧ processLine 1 cst0 (str ("END x")) = none := by
  refine ⟨?_, ?_, ?_, ?_⟩ <;> with_unfolding_all decide

/-! ## File aggregation (`parser.rs`, `parse_buffer` / `parse_file`) -/

/-- `parse_buffer` from `parser.rs` (lines 606-614): try the data-packet
grammar first, then the command grammar; `none` propagates the data
parser's panic on short `DATA` lines. -/
def parse_buffer (buffer : Str) :
    Option (Except String (Option CommandPacket × Option DataPacket)) :=
  match DataPacket.parse_packet_string buffer with
  | none => none
  | some (Except.ok d) => some (Except.ok (none, some d))
  | some (Except.error _) =>
    match CommandPacket.parse_packet_string buffer with
    | none => none
    | some (Except.ok c) => some (Except.ok (some c, none))
    | some (Except.error _) => some (Except.error ("Neither packet type was found."))

/-- `return_header` from `parser.rs` (lines 701-703). -/
def return_header : Str :=
  str ("Curve Tracer Log V0.1.0. Authored by Matthew Yu. This file is property of UTSVT, 2020.")

/-- Append a data packet to the first packet set with a matching id, if
any (`parse_file` lines 673-681: for-loop with break; no match, no-op). -/
def appendData : List PacketSet → DataPacket → List PacketSet
  | [], _ => []
  | s :: rest, d =>
    if s.command_packet.packet_id = d.packet_id then
      { s with data_packets := s.data_packets ++ [d] } :: rest
    else s :: appendData rest d

/-- The per-line body of `parse_file`'s read loop (lines 655-685): parse
the trimmed line; a command packet creates a new packet set unless it is
a `TEST` whose id already owns a set; a data packet is appended to the
set with its id; parse failures are logged and skipped. -/
def aggStep (acc : List PacketSet) (line : Str) : Option (List PacketSet) :=
  match parse_buffer (trim line) with
  | none => none
  | some (Except.error _) => some acc
  | some (Except.ok (some c, _)) =>
    let found := acc.any fun ps =>
      decide (ps.command_packet.packet_id = c.packet_id)
        && decide (c.packet_command = PacketCommand.TEST)
    if found = false ∧ c.packet_command = PacketCommand.TEST then some (acc ++ [⟨c, []⟩])
    else some acc
  | some (Except.ok (none, some d)) => some (appendData acc d)
  | some (Except.ok (none, none)) => some acc

/-- The read-parse loop of `parse_file` (lines 644-691) over the file's
lines after the header. -/
def aggLines : List PacketSet → List Str → Option (List PacketSet)
  | acc, [] => some acc
  | acc, l :: ls =>
    match aggStep acc l with
    | none => none
    | some acc1 => aggLines acc1 ls

/-- `parse_file` from `parser.rs` (lines 626-694), on the file's lines
(the existence check and reader are outside the model): reject unless the
first line trims to the exact header, then fold the remaining lines;
`none` models a panic inside line parsing. -/
def parse_file (lines : List Str) : Option (Except String (List PacketSet)) :=
  match lines with
  | [] => some (Except.error ("Invalid header \x7b\x7d"))
  | first :: rest =>
    if trim first ≠ return_header then some (Except.error ("Invalid header \x7b\x7d"))
    else (aggLines [] rest).map Except.ok

/-- The `TEST` command a line parses to under `parse_buffer`, if any. -/
def testCmdOf (line : Str) : Option CommandPacket :=
  match parse_buffer (trim line) with
  | some (Except.ok (some c, _)) =>
    if c.packet_command = PacketCommand.TEST then some c else none
  | _ => none

/-- The regime id of the `TEST` command a line parses to, if any. -/
def testIdOf (line : Str) : Option Int := (testCmdOf line).map fun c => c.packet_id

/-- The command packets of the packet sets whose id is `i`. -/
def regimeCmdsFor (i : Int) (sets : List PacketSet) : List CommandPacket :=
  (sets.filter fun s => s.command_packet.packet_id == i).map fun s => s.command_packet

theorem regimeCmdsFor_ne_nil {i : Int} {acc : List PacketSet} :
    regimeCmdsFor i acc ≠ [] ↔ ∃ s ∈ acc, s.command_packet.packet_id = i := by
  simp only [regimeCmdsFor, ne_eq, List.map_eq_nil, List.filter_eq_nil]
  constructor
  · intro h
    by_contra hc
    push_neg at hc
    exact h fun s hs => by simpa using hc s hs
  · rintro ⟨s, hs, hid⟩ h
    exact absurd (by simpa using h s hs : ¬s.command_packet.packet_id = i) (by simp [hid])

theorem regimeCmdsFor_append (i : Int) (l1 l2 : List PacketSet) :
    regimeCmdsFor i (l1 ++ l2) = regimeCmdsFor i l1 ++ regimeCmdsFor i l2 := by
  simp [regimeCmdsFor, List.filter_append]

theorem regimeCmdsFor_cons (i : Int) (s : PacketSet) (t : List PacketSet) :
    regimeCmdsFor i (s :: t)
      = if s.command_packet.packet_id == i then s.command_packet :: regimeCmdsFor i t
        else regimeCmdsFor i t := by
  simp only [regimeCmdsFor, List.filter_cons]
  split
  · simp [regimeCmdsFor]
  · rfl

theorem regimeCmdsFor_appendData (i : Int) :
    ∀ (acc : List PacketSet) (d : DataPacket),
      regimeCmdsFor i (appendData acc d) = regimeCmdsFor i acc
  | [], _ => rfl
  | s :: rest, d => by
    simp only [appendData]
    split
    · rw [regimeCmdsFor_cons, regimeCmdsFor_cons]
    · rw [regimeCmdsFor_cons, regimeCmdsFor_cons, regimeCmdsFor_appendData i rest d]

theorem testCmdOf_some {l : Str} {c : CommandPacket} (h : testCmdOf l = some c) :
    c.packet_command = PacketCommand.TEST
    ∧ ∃ o, parse_buffer (trim l) = some (Except.ok (some c, o)) := by
  unfold testCmdOf at h
  split at h
  · rename_i c' o heq
    split at h
    · rename_i hTEST
      simp only [Option.some.injEq] at h
      subst h
      exact ⟨hTEST, o, heq⟩
    · simp at h
  · simp at h

theorem mem_appendData_cmd {d : DataPacket} :
    ∀ {acc : List PacketSet} {s' : PacketSet}, s' ∈ appendData acc d →
      ∃ s ∈ acc, s'.command_packet = s.command_packet
  | [], s', h => by simp [appendData] at h
  | s :: rest, s', h => by
    simp only [appendData] at h
    split at h
    · rcases List.mem_cons.mp h with h1 | h1
      · exact ⟨s, List.mem_cons_self s rest, by rw [h1]⟩
      · exact ⟨s', List.mem_cons_of_mem s h1, rfl⟩
    · rcases List.mem_cons.mp h with h1 | h1
      · exact ⟨s, List.mem_cons_self s rest, by rw [h1]⟩
      · obtain ⟨s0, hs0, hcmd⟩ := mem_appendData_cmd h1
        exact ⟨s0, List.mem_cons_of_mem s hs0, hcmd⟩

theorem mem_appendData_full {d : DataPacket} :
    ∀ {acc : List PacketSet} {s' : PacketSet}, s' ∈ appendData acc d →
      s' ∈ acc ∨ ∃ s ∈ acc, s'.command_packet = s.command_packet
        ∧ s'.data_packets = s.data_packets ++ [d]
        ∧ s.command_packet.packet_id = d.packet_id
  | [], s', h => by simp [appendData] at h
  | s :: rest, s', h => by
    simp only [appendData] at h
    split at h
    · rename_i hmatch
      rcases List.mem_cons.mp h with h1 | h1
      · exact Or.inr ⟨s, List.mem_cons_self s rest, by rw [h1], by rw [h1], hmatch⟩
      · exact Or.inl (List.mem_cons_of_mem s h1)
    · rcases List.mem_cons.mp h with h1 | h1
      · exact Or.inl (h1 ▸ List.mem_cons_self s rest)
      · rcases mem_appendData_full h1 with h2 | ⟨s0, hs0, hc⟩
        · exact Or.inl (List.mem_cons_of_mem s h2)
        · exact Or.inr ⟨s0, List.mem_cons_of_mem s hs0, hc⟩

theorem aggStep_preserves {i : Int} {acc acc' : List PacketSet} {l : Str}
    (h : aggStep acc l = some acc') (hne : regimeCmdsFor i acc ≠ []) :
    regimeCmdsFor i acc' = regimeCmdsFor i acc := by
  unfold aggStep at h
  split at h
  · exact absurd h (by simp)
  · simp only [Option.some.injEq] at h
    subst h
    rfl
  · rename_i c o heq
    dsimp only at h
    split at h
    · rename_i hcond
      simp only [Option.some.injEq] at h
      subst h
      have hci : c.packet_id ≠ i := by
        intro hci
        obtain ⟨s, hs, hid⟩ := regimeCmdsFor_ne_nil.mp hne
        have : (acc.any fun ps =>
            decide (ps.command_packet.packet_id = c.packet_id)
              && decide (c.packet_command = PacketCommand.TEST)) = true := by
          rw [List.any_eq_true]
          exact ⟨s, hs, by simp [hid, hci, hcond.2]⟩
        rw [hcond.1] at this
        exact absurd this (by simp)
      rw [regimeCmdsFor_append]
      have : regimeCmdsFor i [(⟨c, []⟩ : PacketSet)] = [] := by
        simp [regimeCmdsFor, List.filter_cons, hci]
      rw [this, List.append_nil]
    · simp only [Option.some.injEq] at h
      subst h
      rfl
  · rename_i d heq
    simp only [Option.some.injEq] at h
    subst h
    exact regimeCmdsFor_appendData i acc d
  · simp only [Option.some.injEq] at h
    subst h
    rfl

theorem aggStep_creates {acc : List PacketSet} {y : Str} {c : CommandPacket}
    (hc : testCmdOf y = some c)
    (hfresh : ∀ s ∈ acc, s.command_packet.packet_id ≠ c.packet_id) :
    aggStep acc y = some (acc ++ [⟨c, []⟩]) := by
  obtain ⟨hTEST, o, hpb⟩ := testCmdOf_some hc
  unfold aggStep
  rw [hpb]
  dsimp only
  have hfound : (acc.any fun ps =>
      decide (ps.command_packet.packet_id = c.packet_id)
        && decide (c.packet_command = PacketCommand.TEST)) = false := by
    rw [List.any_eq_false]
    intro ps hps
    simp [hfresh ps hps]
  rw [if_pos ⟨hfound, hTEST⟩]

theorem aggStep_no_create {i : Int} {acc acc' : List PacketSet} {l : Str}
    (h : aggStep acc l = some acc') (hid : testIdOf l ≠ some i)
    (hacc : ∀ s ∈ acc, s.command_packet.packet_id ≠ i) :
    ∀ s ∈ acc', s.command_packet.packet_id ≠ i := by
  unfold aggStep at h
  split at h
  · exact absurd h (by simp)
  · simp only [Option.some.injEq] at h
    subst h
    exact hacc
  · rename_i c o heq
    dsimp only at h
    split at h
    · rename_i hcond
      simp only [Option.some.injEq] at h
      subst h
      intro s hs
      rcases List.mem_append.mp hs with h1 | h1
      · exact hacc s h1
      · simp only [List.mem_singleton] at h1
        subst h1
        intro hci
        apply hid
        unfold testIdOf testCmdOf
        rw [heq]
        dsimp only
        rw [if_pos hcond.2]
        simpa using hci
    · simp only [Option.some.injEq] at h
      subst h
      exact hacc
  · rename_i d heq
    simp only [Option.some.injEq] at h
    subst h
    intro s hs
    obtain ⟨s0, hs0, hcmd⟩ := mem_appendData_cmd hs
    rw [hcmd]
    exact hacc s0 hs0
  · simp only [Option.some.injEq] at h
    subst h
    exact hacc

theorem aggLines_append :
    ∀ (xs ys : List Str) (acc : List PacketSet),
      aggLines acc (xs ++ ys) = (aggLines acc xs).bind fun a => aggLines a ys
  | [], ys, acc => by simp [aggLines]
  | l :: ls, ys, acc => by
    simp only [List.cons_append, aggLines]
    cases aggStep acc l with
    | none => rfl
    | some a1 => exact aggLines_append ls ys a1

theorem aggLines_preserves {i : Int} :
    ∀ (ls : List Str) (acc res : List PacketSet),
      aggLines acc ls = some res → regimeCmdsFor i acc ≠ [] →
      regimeCmdsFor i res = regimeCmdsFor i acc
  | [], acc, res, h, _ => by
    simp only [aggLines, Option.some.injEq] at h
    subst h
    rfl
  | l :: ls, acc, res, h, hne => by
    simp only [aggLines] at h
    split at h
    · exact absurd h (by simp)
    · rename_i a1 hstep
      have hp := aggStep_preserves hstep hne
      rw [aggLines_preserves ls a1 res h (by rw [hp]; exact hne), hp]

theorem aggLines_no_create {i : Int} :
    ∀ (ls : List Str) (acc res : List PacketSet),
      aggLines acc ls = some res → (∀ l ∈ ls, testIdOf l ≠ some i) →
      (∀ s ∈ acc, s.command_packet.packet_id ≠ i) →
      ∀ s ∈ res, s.command_packet.packet_id ≠ i
  | [], acc, res, h, _, hacc => by
    simp only [aggLines, Option.some.injEq] at h
    subst h
    exact hacc
  | l :: ls, acc, res, h, hls, hacc => by
    simp only [aggLines] at h
    split at h
    · exact absurd h (by simp)
    · rename_i a1 hstep
      exact aggLines_no_create ls a1 res h (fun x hx => hls x (List.mem_cons_of_mem l hx))
        (aggStep_no_create hstep (hls l (List.mem_cons_self l ls)) hacc)

theorem aggStep_no_data {i : Int} {acc acc' : List PacketSet} {l : Str}
    (h : aggStep acc l = some acc') (hid : testIdOf l ≠ some i)
    (hacc : ∀ s ∈ acc, s.command_packet.packet_id ≠ i
      ∧ ∀ d ∈ s.data_packets, d.packet_id ≠ i) :
    ∀ s ∈ acc', s.command_packet.packet_id ≠ i
      ∧ ∀ d ∈ s.data_packets, d.packet_id ≠ i := by
  have hacc1 : ∀ s ∈ acc, s.command_packet.packet_id ≠ i := fun s hs => (hacc s hs).1
  unfold aggStep at h
  split at h
  · exact absurd h (by simp)
  · simp only [Option.some.injEq] at h
    subst h
    exact hacc
  · rename_i c o heq
    dsimp only at h
    split at h
    · rename_i hcond
      simp only [Option.some.injEq] at h
      subst h
      intro s hs
      rcases List.mem_append.mp hs with h1 | h1
      · exact hacc s h1
      · simp only [List.mem_singleton] at h1
        subst h1
        refine ⟨?_, by simp⟩
        intro hci
        apply hid
        unfold testIdOf testCmdOf
        rw [heq]
        dsimp only
        rw [if_pos hcond.2]
        simpa using hci
    · simp only [Option.some.injEq] at h
      subst h
      exact hacc
  · rename_i d heq
    simp only [Option.some.injEq] at h
    subst h
    intro s hs
    rcases mem_appendData_full hs with h1 | ⟨s0, hs0, hcmd, hdata, hmatch⟩
    · exact hacc s h1
    · refine ⟨by rw [hcmd]; exact (hacc s0 hs0).1, ?_⟩
      intro d2 hd2
      rw [hdata] at hd2
      rcases List.mem_append.mp hd2 with h2 | h2
      · exact (hacc s0 hs0).2 d2 h2
      · simp only [List.mem_singleton] at h2
        subst h2
        rw [← hmatch]
        exact (hacc s0 hs0).1
  · simp only [Option.some.injEq] at h
    subst h
    exact hacc

theorem aggLines_no_data {i : Int} :
    ∀ (ls : List Str) (acc res : List PacketSet),
      aggLines acc ls = some res → (∀ l ∈ ls, testIdOf l ≠ some i) →
      (∀ s ∈ acc, s.command_packet.packet_id ≠ i
        ∧ ∀ d ∈ s.data_packets, d.packet_id ≠ i) →
      ∀ s ∈ res, s.command_packet.packet_id ≠ i
        ∧ ∀ d ∈ s.data_packets, d.packet_id ≠ i
  | [], acc, res, h, _, hacc => by
    simp only [aggLines, Option.some.injEq] at h
    subst h
    exact hacc
  | l :: ls, acc, res, h, hls, hacc => by
    simp only [aggLines] at h
    split at h
    · exact absurd h (by simp)
    · rename_i a1 hstep
      exact aggLines_no_data ls a1 res h (fun x hx => hls x (List.mem_cons_of_mem l hx))
        (aggStep_no_data hstep (hls l (List.mem_cons_self l ls)) hacc)

/-- C6: in any line sequence whose first `TEST` line for id `i` parses to
the command packet `c` (no earlier line is a `TEST` for `i`), and which
contains at least one later `TEST` line for the same id, aggregation
produces exactly one packet set with id `i`, and it owns `c` — the first
`TEST`'s parameters; the later duplicates are discarded. -/
theorem c6_first_test_wins :
    ∀ (i : Int) (xs ys : List Str) (y : Str) (c : CommandPacket) (res : List PacketSet),
      testCmdOf y = some c → c.packet_id = i →
      (∀ x ∈ xs, testIdOf x ≠ some i) →
      (∃ y2 ∈ ys, testIdOf y2 = some i) →
      aggLines [] (xs ++ y :: ys) = some res →
      regimeCmdsFor i res = [c] := by
  intro i xs ys y c res hy hci hxs hys h
  rw [aggLines_append] at h
  cases h1 : aggLines [] xs with
  | none =>
    rw [h1] at h
    simp at h
  | some a1 =>
    rw [h1] at h
    simp only [Option.some_bind] at h
    have ha1 : ∀ s ∈ a1, s.command_packet.packet_id ≠ i :=
      aggLines_no_create xs [] a1 h1 hxs (by simp)
    simp only [aggLines] at h
    have hstep := aggStep_creates hy (fun s hs => by rw [hci]; exact ha1 s hs)
    rw [hstep] at h
    dsimp only at h
    have hbase : regimeCmdsFor i (a1 ++ [⟨c, []⟩]) = [c] := by
      rw [regimeCmdsFor_append]
      have h0 : regimeCmdsFor i a1 = [] := by
        by_contra hc0
        obtain ⟨s, hs, hid⟩ := regimeCmdsFor_ne_nil.mp hc0
        exact ha1 s hs hid
      rw [h0]
      simp [regimeCmdsFor, List.filter_cons, hci]
    rw [aggLines_preserves ys _ res h (by rw [hbase]; simp), hbase]


/-- C7: if no line of the input is a `TEST` command for regime id `i`,
aggregation yields no packet set with id `i` and no data packet with
regime id `i` buffered anywhere: an orphan `DATA i ...` line is dropped. -/
theorem c7_orphan_data_dropped :
    ∀ (i : Int) (lines : List Str) (res : List PacketSet),
      aggLines [] lines = some res →
      (∀ l ∈ lines, testIdOf l ≠ some i) →
      (res.all fun s => (s.command_packet.packet_id != i)
        && s.data_packets.all fun d => d.packet_id != i) = true := by
  intro i lines res h hlines
  have hq := aggLines_no_data lines [] res h hlines (by simp)
  rw [List.all_eq_true]
  intro s hs
  rw [Bool.and_eq_true, bne_iff_ne, List.all_eq_true]
  refine ⟨(hq s hs).1, fun d hd => ?_⟩
  rw [bne_iff_ne]
  exact (hq s hs).2 d hd


/-- C6 (witness): two `TEST 5 ...` lines with different parameters yield
exactly one regime owning the first line's parameters. -/
theorem c6_first_test_wins_witness :
    regimeCmdsFor 5 [⟨⟨5, PacketCommand.TEST, [0, 10, 1]⟩, []⟩]
      = [⟨5, PacketCommand.TEST, [0, 10, 1]⟩] :=
  c6_first_test_wins 5 [] [str ("TEST 5 5 20 2")] (str ("TEST 5 0 10 1"))
    ⟨5, PacketCommand.TEST, [0, 10, 1]⟩ [⟨⟨5, PacketCommand.TEST, [0, 10, 1]⟩, []⟩]
    (by with_unfolding_all decide) (by decide) (by decide)
    (by with_unfolding_all decide) (by with_unfolding_all decide)

/-- C7 (witness): feeding `DATA 9 0 0 1.0` with no `TEST 9` line leaves
no trace of regime 9 (here alongside an unrelated `TEST 5` regime; with
only the orphan data line the result is zero regimes). -/
theorem c7_orphan_data_dropped_witness :
    (([⟨⟨5, PacketCommand.TEST, [0, 10, 1]⟩, []⟩] : List PacketSet).all fun s =>
        (s.command_packet.packet_id != 9)
          && s.data_packets.all fun d => d.packet_id != 9) = true :=
  c7_orphan_data_dropped 9 [str ("TEST 5 0 10 1"), str ("DATA 9 0 0 1.0")]
    [⟨⟨5, PacketCommand.TEST, [0, 10, 1]⟩, []⟩]
    (by with_unfolding_all decide) (by with_unfolding_all decide)

/-- C8: a file whose first line does not *trim* to the exact header
constant is rejected with the invalid-header error before any packet is
parsed (third conjunct), and lines failing both grammars are skipped
without aborting aggregation (fourth conjunct).  Two divergences from the
claim as stated: a first line that differs from the header only by
surrounding whitespace is accepted, because the code compares
`buffer.trim()` (second conjunct); and a malformed short `DATA` line
panics `parse_file` instead of being skipped (first conjunct, the same
missing-arity bug as C2). -/
theorem c8_header_and_malformed_lines :
    parse_file [return_header, str ("DATA 1")] = none
    ∧ parse_file [return_header ++ [' '], str ("TEST 1 0 10 1")]
      = some (Except.ok [⟨⟨1, PacketCommand.TEST, [0, 10, 1]⟩, []⟩])
    ∧ parse_file [str ("not the header"), str ("TEST 1 0 10 1")]
      = some (Except.error ("Invalid header \x7b\x7d"))
    ∧ aggLines [] [str ("garbage line"), str ("TEST 1 0 10 1")]
      = some [⟨⟨1, PacketCommand.TEST, [0, 10, 1]⟩, []⟩] := by
  refine ⟨?_, ?_, ?_, ?_⟩ <;> with_unfolding_all decide
